import Mathlib

/-!
Shallow embedding of the httpgzip response-compression middleware
(`response.go` together with the configuration code in `httpgzip.go`).

Bytes are modelled as `List Nat`, machine state as an explicit record,
the underlying `http.ResponseWriter` sink as a trace of events, and the
pooled `gzip.Writer` as an opaque deterministic stream transformer whose
input is recorded in the trace (`Ev.gzWrite`/`Ev.gzFlush`/`Ev.gzClose`).
Fallible operations return `Option GoErr`.
-/

namespace Httpgzip

/-- Byte strings, as lists of natural numbers. -/
abbrev Bytes := List Nat

/-! ## Content-type matching (`parsedContentType`, `response.go` lines 229-256) -/

/-- Parsed representation of one of the inputs to `ContentTypes`
(`response.go` lines 231-234).  The Go `map[string]string` of directives is
modelled as an association list with distinct keys (a Go map has no
duplicate keys); `mime.ParseMediaType` never produces duplicates. -/
structure parsedContentType where
  mediaType : String
  params : List (String × String)
  deriving Repr, DecidableEq

/-- Go map lookup `params[k]` on the association-list model: the first
binding of the key, if any. -/
def lookupParam (params : List (String × String)) (k : String) : Option String :=
  (params.find? (fun kv => kv.1 == k)).map (fun kv => kv.2)

/-- The loop body of `parsedContentType.equals` (`response.go` lines
250-254): `if w, ok := params[k]; !ok || v != w { return false }` for one
configured directive `kv`. -/
def paramMatches (params : List (String × String)) (kv : String × String) : Bool :=
  match lookupParam params kv.1 with
  | some w => kv.2 == w
  | none => false

/-- Transcription of `parsedContentType.equals` (`response.go` lines 237-256):
media types must be identical; a matcher with no directives accepts any
directives; otherwise the directive maps must have equal size and every
configured directive must be present with an equal value. -/
def parsedContentType.equals (pct : parsedContentType) (mediaType : String)
    (params : List (String × String)) : Bool :=
  if pct.mediaType ≠ mediaType then false
  else if pct.params.length = 0 then true
  else if pct.params.length ≠ params.length then false
  else pct.params.all (paramMatches params)

/-- Split a character list at every occurrence of a separator. -/
def splitOnChar (sep : Char) : List Char → List (List Char)
  | [] => [[]]
  | c :: rest =>
    if c = sep then [] :: splitOnChar sep rest
    else
      match splitOnChar sep rest with
      | [] => [[c]]
      | h :: t => (c :: h) :: t

/-- Drop leading and trailing spaces. -/
def trimSpaces (cs : List Char) : List Char :=
  ((cs.dropWhile (· = ' ')).reverse.dropWhile (· = ' ')).reverse

/-- ASCII-lowercase a character list. -/
def lowerChars (cs : List Char) : List Char :=
  cs.map Char.toLower

/-- Modelled from the spec: `mime.ParseMediaType` is an external collaborator
(the Go standard library) not present in the sources.  Per the spec, parsing
is whitespace-tolerant and case-insensitive on the base type, and directives
keep their literal values: we split on `;`, trim surrounding spaces, lowercase
the media type and the directive keys, and fail (like `mime.ParseMediaType`)
on a malformed `key=value` directive or on a duplicate directive key.
Quoted-string and RFC 2231 forms are outside the fragment this model needs. -/
def parseMediaType (v : String) : Option (String × List (String × String)) :=
  match splitOnChar ';' v.data with
  | [] => none
  | mt :: rest =>
    let mediaType : String := ⟨lowerChars (trimSpaces mt)⟩
    if mediaType = "" then none
    else
      let parsed := rest.map (fun p =>
        match splitOnChar '=' p with
        | [k, w] =>
          some ((⟨lowerChars (trimSpaces k)⟩ : String), (⟨trimSpaces w⟩ : String))
        | _ => none)
      if parsed.all (·.isSome) then
        let params := parsed.filterMap id
        if (params.map Prod.fst).Nodup then some (mediaType, params) else none
      else none

/-- Modelled from the spec: `handleContentType` is called from
`gzipResponseWriter.Write` (`response.go` lines 70 and 83) but its body is not
among the sources.  Per the spec (§4.3): an empty allow-list matches
everything; otherwise the candidate is parsed and matched against each
configured matcher with `parsedContentType.equals`, an unparseable candidate
matching nothing. -/
def handleContentType (contentTypes : List parsedContentType) (ct : String) : Bool :=
  if contentTypes.length = 0 then true
  else
    match parseMediaType ct with
    | some (mt, params) => contentTypes.any (fun c => c.equals mt params)
    | none => false

/-- Transcription of the `ContentTypes` configuration option
(`httpgzip.go` lines 786-796): each configured string is parsed with
`mime.ParseMediaType` and unparseable entries are silently dropped. -/
def ContentTypes (types : List String) : List parsedContentType :=
  types.filterMap (fun v => (parseMediaType v).map (fun p => ⟨p.1, p.2⟩))

/-! ## Header values and `strconv.Atoi` -/

/-- Value of a digit list, or `none` if empty or not all digits. -/
def parseDigits (cs : List Char) : Option Nat :=
  if cs = [] then none
  else if cs.all (·.isDigit) then
    some (cs.foldl (fun a c => a * 10 + (c.toNat - 48)) 0)
  else none

/-- Model of the Go idiom `cl, _ := strconv.Atoi(s)` (`response.go` line 65):
the parsed integer, or `0` when parsing fails (`strconv.Atoi` accepts an
optional sign followed by digits and nothing else).  Integers are modelled
as unbounded: the headers this development reasons about stay far below the
native integer range, where `Atoi` is exact. -/
def goAtoi (s : String) : Int :=
  match s.data with
  | '-' :: rest =>
    match parseDigits rest with
    | some n => -(n : Int)
    | none => 0
  | '+' :: rest =>
    match parseDigits rest with
    | some n => (n : Int)
    | none => 0
  | l =>
    match parseDigits l with
    | some n => (n : Int)
    | none => 0

/-! ## The per-request decision state machine (`gzipResponseWriter`) -/

/-- The three response headers the state machine reads or writes
(`contentLength`, `contentType`, `contentEncoding`); the empty string stands
for an absent header, matching Go's `Header().Get` on a missing key.
The map is the underlying sink's header map, shared with the handler. -/
structure Headers where
  cl : String
  ct : String
  ce : String
  deriving Repr, DecidableEq

/-- Observable events at the boundary between the state machine and the
underlying `http.ResponseWriter`.  The pooled compressor sits between the
machine and the sink and is deterministic, so its interactions are recorded
symbolically: `gzWrite` is a write into the compressor, `gzFlush` a
compressor flush, `gzClose` the compressor finalization (trailer emission). -/
inductive Ev where
  /-- `WriteHeader(code)` called on the underlying sink. -/
  | header (code : Int)
  /-- Bytes written directly to the underlying sink. -/
  | write (b : Bytes)
  /-- Bytes written into the pooled compressor. -/
  | gzWrite (b : Bytes)
  /-- The compressor was flushed. -/
  | gzFlush
  /-- The compressor was closed (gzip trailer emitted to the sink). -/
  | gzClose
  /-- The underlying sink's own `Flush()` was invoked. -/
  | flushed
  deriving Repr, DecidableEq

/-- State of one `gzipResponseWriter` (`response.go` lines 23-36) together
with the trace of events it has caused at the underlying sink.
`gw = true` models a non-nil `w.gw`; `buf = none` models a nil slice,
distinct from an empty one. -/
structure St where
  hdr : Headers
  code : Int
  buf : Option Bytes
  ignore : Bool
  gw : Bool
  out : List Ev
  deriving Repr, DecidableEq

/-- The `Config` fields the state machine reads (`httpgzip.go` lines 678-684),
plus the external content-sniffing collaborator `http.DetectContentType`
(`response.go` line 79), modelled as a deterministic function of the buffered
bytes.  The compression level and pool only affect the opaque compressor. -/
structure Config where
  minSize : Nat
  contentTypes : List parsedContentType
  detect : Bytes → String

/-- Go `append(buf, b...)` on a possibly nil slice: appending nothing to a
nil slice leaves it nil (`response.go` line 62). -/
def goAppend (buf : Option Bytes) (b : Bytes) : Option Bytes :=
  match buf with
  | none => if b = [] then none else some b
  | some a => some (a ++ b)

/-- `len` of a possibly nil slice. -/
def lenB (buf : Option Bytes) : Nat :=
  match buf with
  | none => 0
  | some a => a.length

/-- Write-failure values surfaced by the machine. -/
inductive GoErr where
  /-- `io.ErrShortWrite`. -/
  | shortWrite
  /-- The `fmt.Errorf` wrapping applied by `Close` (`response.go` line 185). -/
  | closeWrap (e : GoErr)
  deriving Repr, DecidableEq

/-- Transcription of the short-write guard shared by `startPlain` and
`startGzip` (`response.go` lines 126-128 and 151-153):
`if err == nil && n < len(w.buf) { err = io.ErrShortWrite }`, where `bufNow`
is the value of `w.buf` at the moment the guard runs. -/
def shortWriteCheck (bufNow : Option Bytes) (n : Nat) (err : Option GoErr) :
    Option GoErr :=
  if err = none ∧ n < lenB bufNow then some GoErr.shortWrite else err

/-- Transcription of `gzipResponseWriter.startPlain` (`response.go` lines
135-155), with the result `(n, err)` of the underlying sink's `Write` call
on the buffer passed as parameters.  Note the source sets `w.buf = nil`
before the `n < len(w.buf)` short-write guard, so the guard reads the
nil'd buffer. -/
def startPlainWith (s : St) (n : Nat) (err : Option GoErr) : St × Option GoErr :=
  -- lines 136-140: emit the pending status code, then prevent further emission
  let s := if s.code ≠ 0 then
    { s with out := s.out ++ [Ev.header s.code], code := 0 } else s
  -- line 141
  let s := { s with ignore := true }
  -- lines 143-145: if Write was never called, don't write to the sink
  match s.buf with
  | none => (s, none)
  | some buf =>
    -- line 146: the sink accepted `n` of the buffered bytes; line 147: `w.buf = nil`
    let s := { s with out := s.out ++ [Ev.write (buf.take n)], buf := none }
    -- lines 148-153: the guard reads `w.buf` after the `nil` assignment
    (s, shortWriteCheck s.buf n err)

/-- `startPlain` against the well-behaved sink of the main model, which
accepts every byte and reports no error (an `io.Writer` returning
`n = len(p), err = nil`). -/
def startPlain (s : St) : St × Option GoErr :=
  startPlainWith s (lenB s.buf) none

set_option linter.unusedVariables false in
/-- Transcription of `gzipResponseWriter.startGzip` (`response.go` lines
99-132), with the result `(n, err)` of the compressor's `Write` call on the
buffer passed as parameters.  The `cfg` argument stands for the receiver's
`w.cfg` (pool and level), which only affect the opaque compressor.  Unlike
`startPlain`, the short-write guard here reads `w.buf` unmodified. -/
def startGzipWith (cfg : Config) (s : St) (n : Nat) (err : Option GoErr) :
    St × Option GoErr :=
  -- line 101: Header().Set(contentEncoding, "gzip"); line 106: Header().Del(contentLength)
  let s := { s with hdr := { s.hdr with ce := "gzip", cl := "" } }
  -- lines 109-113: emit the pending status code, then prevent further emission
  let s := if s.code ≠ 0 then
    { s with out := s.out ++ [Ev.header s.code], code := 0 } else s
  -- lines 118-130: only initialize the compressor if there are buffered bytes
  if lenB s.buf > 0 then
    -- line 120: `init` acquires a pooled compressor bound to the sink
    let s := { s with gw := true }
    -- line 121: the compressor accepted `n` of the buffered bytes
    let s := { s with out := s.out ++ [Ev.gzWrite ((s.buf.getD []).take n)] }
    -- lines 126-129
    (s, shortWriteCheck s.buf n err)
  else (s, none)

/-- `startGzip` against the well-behaved compressor of the main model. -/
def startGzip (cfg : Config) (s : St) : St × Option GoErr :=
  startGzipWith cfg s (lenB s.buf) none

/-- The fall-through tail of `gzipResponseWriter.Write` (`response.go` lines
91-95): commit to passthrough and report the whole chunk accepted, or
surface the commit error with a zero count. -/
def plainFinish (s : St) (b : Bytes) : St × Nat × Option GoErr :=
  match startPlain s with
  | (s, none) => (s, b.length, none)
  | (s, some e) => (s, 0, some e)

/-- Transcription of `gzipResponseWriter.Write` (`response.go` lines 49-96). -/
def write (cfg : Config) (s : St) (b : Bytes) : St × Nat × Option GoErr :=
  -- lines 51-53: compressor already active, forward to it
  if s.gw then
    ({ s with out := s.out ++ [Ev.gzWrite b] }, b.length, none)
  -- lines 56-58: passthrough already committed, forward to the sink
  else if s.ignore then
    ({ s with out := s.out ++ [Ev.write b] }, b.length, none)
  else
    -- line 62: buffer the chunk
    let s := { s with buf := goAppend s.buf b }
    -- lines 64-68
    let cl := goAtoi s.hdr.cl
    let ct := s.hdr.ct
    let ce := s.hdr.ce
    -- line 70
    if ce = "" ∧ (cl = 0 ∨ cl ≥ (cfg.minSize : Int)) ∧
        (ct = "" ∨ handleContentType cfg.contentTypes ct = true) then
      -- lines 72-74: below threshold with no declared length: withhold the decision
      if lenB s.buf < cfg.minSize ∧ cl = 0 then
        (s, b.length, none)
      -- line 76
      else if cl ≥ (cfg.minSize : Int) ∨ lenB s.buf ≥ cfg.minSize then
        -- lines 78-81: sniff a content type from the buffer if none was declared
        let ct' := if ct = "" then cfg.detect (s.buf.getD []) else ct
        let s := if ct = "" then { s with hdr := { s.hdr with ct := ct' } } else s
        -- lines 83-88
        if handleContentType cfg.contentTypes ct' then
          match startGzip cfg s with
          | (s, none) => (s, b.length, none)
          | (s, some e) => (s, 0, some e)
        else plainFinish s b
      else plainFinish s b
    else plainFinish s b

/-- Transcription of `gzipResponseWriter.WriteHeader` (`response.go` lines
158-162): only the first recorded code is kept. -/
def writeHeader (s : St) (code : Int) : St :=
  if s.code = 0 then { s with code := code } else s

set_option linter.unusedVariables false in
/-- Transcription of `gzipResponseWriter.Close` (`response.go` lines 175-194)
against the well-behaved sink and compressor; `cfg` stands for the
receiver's `w.cfg`, whose pool receives the returned compressor. -/
def close (cfg : Config) (s : St) : St × Option GoErr :=
  -- lines 176-178
  if s.ignore then (s, none)
  -- lines 180-188: gzip never triggered, write out the regular response
  else if s.gw = false then
    match startPlain s with
    | (s, none) => (s, none)
    | (s, some e) => (s, some (GoErr.closeWrap e))
  -- lines 190-193: finalize the compressor, return it, clear the handle
  else
    ({ s with out := s.out ++ [Ev.gzClose], gw := false }, none)

/-- Transcription of `gzipResponseWriter.Flush` (`response.go` lines 199-215),
with the outcome of the `http.Flusher` interface assertion on the underlying
sink (`fw, ok := w.ResponseWriter.(http.Flusher)`, line 212) passed as
`sinkFlusher`: `false` models a sink without the flush capability, for which
the sink flush is skipped. -/
def flushWith (sinkFlusher : Bool) (s : St) : St :=
  -- lines 200-206: a no-op until startGzip or startPlain has been called
  if s.gw = false ∧ s.ignore = false then s
  else
    -- lines 208-210
    let s := if s.gw then { s with out := s.out ++ [Ev.gzFlush] } else s
    -- lines 212-214
    if sinkFlusher then { s with out := s.out ++ [Ev.flushed] } else s

/-- `Flush` in the main model, whose underlying sink exposes the
`http.Flusher` capability. -/
def flush (s : St) : St :=
  flushWith true s

/-! ## Handler interaction model -/

/-- The header keys the machine consults. -/
inductive HName where
  | cl
  | ct
  | ce
  deriving Repr, DecidableEq

/-- One operation the wrapped handler can perform on the response writer
during its execution. -/
inductive Op where
  /-- `Write(b)`. -/
  | write (b : Bytes)
  /-- `Header().Set(h, v)` on the shared header map. -/
  | setHeader (h : HName) (v : String)
  /-- `WriteHeader(code)`. -/
  | writeHeader (code : Int)
  /-- `Flush()`. -/
  | flush
  /-- An explicit `Close()` by the handler itself. -/
  | close
  deriving Repr, DecidableEq

/-- `Header().Set` on the shared header map. -/
def setHeader (s : St) (h : HName) (v : String) : St :=
  match h with
  | HName.cl => { s with hdr := { s.hdr with cl := v } }
  | HName.ct => { s with hdr := { s.hdr with ct := v } }
  | HName.ce => { s with hdr := { s.hdr with ce := v } }

/-- One handler operation, discarding the count/error results (the handler
may inspect them but they do not influence this model's state). -/
def step (cfg : Config) (s : St) : Op → St
  | Op.write b => (write cfg s b).1
  | Op.setHeader h v => setHeader s h v
  | Op.writeHeader c => writeHeader s c
  | Op.flush => flush s
  | Op.close => (close cfg s).1

/-- Run a sequence of handler operations. -/
def runOps (cfg : Config) (ops : List Op) (s : St) : St :=
  ops.foldl (step cfg) s

/-- The state of a freshly constructed `gzipResponseWriter`
(`Config.ResponseWriter`, `httpgzip.go` lines 730-739): empty headers, no
pending code, nil buffer, no commitment, empty sink trace. -/
def initSt : St :=
  { hdr := ⟨"", "", ""⟩, code := 0, buf := none, ignore := false,
    gw := false, out := [] }

/-- A whole request: the handler's operations followed by the deferred
`Close` the middleware guarantees (`Config.Handler`, `httpgzip.go` line 724). -/
def runReq (cfg : Config) (ops : List Op) : St :=
  (close cfg (runOps cfg ops initSt)).1

/-! ## Observables -/

/-- Whether the machine has committed (to passthrough or to an active
compressed stream). -/
def committed (s : St) : Bool :=
  s.ignore || s.gw

/-- The status codes passed to the underlying sink's `WriteHeader`, in order. -/
def headerCodes (evs : List Ev) : List Int :=
  evs.filterMap fun e =>
    match e with
    | Ev.header c => some c
    | _ => none

/-- The status the underlying `net/http` layer ultimately uses: the first
`WriteHeader` it receives (later calls are superfluous and dropped by it). -/
def firstEmitted (evs : List Ev) : Option Int :=
  (headerCodes evs).head?

/-- All bytes written directly (uncompressed) to the underlying sink. -/
def writtenBytes (evs : List Ev) : Bytes :=
  (evs.filterMap fun e =>
    match e with
    | Ev.write b => some b
    | _ => none).flatten

/-- True when no compressor interaction appears in the trace: the response
was never compressed. -/
def gzFree (evs : List Ev) : Bool :=
  evs.all fun e =>
    match e with
    | Ev.gzWrite _ => false
    | Ev.gzFlush => false
    | Ev.gzClose => false
    | _ => true

/-- The concatenation of all byte chunks the handler wrote. -/
def flattenWrites (ops : List Op) : Bytes :=
  (ops.filterMap fun op =>
    match op with
    | Op.write b => some b
    | _ => none).flatten

/-! ## Capability forwarding (`Config.ResponseWriter` and the wrapper's method set) -/

/-- The optional capabilities of a response sink: whether its dynamic type
implements `http.Flusher`, `http.Hijacker` and `http.CloseNotifier`. -/
structure SinkCaps where
  flusher : Bool
  hijacker : Bool
  closeNotifier : Bool
  deriving Repr, DecidableEq

/-- Capability set advertised by the wrapper `Config.ResponseWriter` builds
(`httpgzip.go` lines 730-739): `gzipResponseWriter` itself declares a `Flush`
method (`response.go` line 199) and a `Hijack` method (line 219, witnessed by
`var _ http.Hijacker` at line 227), so a Go interface assertion for either
always succeeds on the wrapper, whatever the sink supports; the
`CloseNotify`-forwarding variant (`gzipResponseWriterWithCloseNotify`, lines
40-46) is chosen exactly when the sink is an `http.CloseNotifier`. -/
def wrapperCaps (sink : SinkCaps) : SinkCaps :=
  { flusher := true, hijacker := true, closeNotifier := sink.closeNotifier }

/-- Outcome of invoking the wrapper's `Hijack`. -/
inductive HijackRes where
  /-- Delegated to the sink's own `Hijack`. -/
  | delegated
  /-- The explicit `"http.Hijacker interface is not supported"` error. -/
  | unsupportedErr
  deriving Repr, DecidableEq

/-- Transcription of `gzipResponseWriter.Hijack` (`response.go` lines
219-224): delegate when the sink is an `http.Hijacker`, otherwise return an
explicit error. -/
def hijackModel (sink : SinkCaps) : HijackRes :=
  if sink.hijacker then HijackRes.delegated else HijackRes.unsupportedErr

/-! ## Further definitions used by the claims -/

/-- A concrete policy: 1-byte threshold, accept-everything allow-list, and a
deterministic instance of the external content sniffer. -/
def cfgTiny : Config := ⟨1, [], fun _ => "text/plain; charset=utf-8"⟩

/-- A concrete policy with a 5-byte threshold. -/
def cfgSmall : Config := ⟨5, [], fun _ => "text/plain; charset=utf-8"⟩

/-- A state whose handler has already committed to compression: with a
1-byte threshold, writing the single byte `97` triggers `startGzip`; the
source retains `w.buf` on this path. -/
def stGz : St := (write cfgTiny initSt [97]).1

/-- A fresh writer holding the 4 buffered bytes `"test"`. -/
def stBuf4 : St := { initSt with buf := some [116, 101, 115, 116] }

/-- Handler operations that neither write bytes nor set a status nor close:
header mutation and flushing. -/
def quietOp : Op → Bool
  | Op.setHeader _ _ => true
  | Op.flush => true
  | _ => false

/-- The matching rule exactly as claim C7 words it: base types match
case-insensitively and, when the configured matcher carries directives,
every configured directive is present with an equal value in the candidate
(extra candidate directives are not constrained). -/
def claimedEquals (pct : parsedContentType) (mediaType : String)
    (params : List (String × String)) : Bool :=
  (lowerChars pct.mediaType.data == lowerChars mediaType.data) &&
  (pct.params.isEmpty || pct.params.all (paramMatches params))

/-- Handler operations that occur before the first write in C5's scenario:
anything except a write or an explicit close. -/
def headerPhaseOp : Op → Bool
  | Op.write _ => false
  | Op.close => false
  | _ => true

/-- The handler behaviours covered by the amended C1: writes, status calls
and flushes are unrestricted, the handler does not close the writer itself,
and any header it sets keeps the response eligible — no content-encoding, no
parseable nonzero content-length, and only content types the policy allows. -/
def c1opOK (cfg : Config) : Op → Bool
  | Op.write _ => true
  | Op.setHeader HName.ce v => v == ""
  | Op.setHeader HName.cl v => goAtoi v == 0
  | Op.setHeader HName.ct v => (v == "") || handleContentType cfg.contentTypes v
  | Op.writeHeader _ => true
  | Op.flush => true
  | Op.close => false

/-- The two writes below the 5-byte threshold with a handler-set
`Content-Encoding: deflate`, refuting C1 as stated. -/
def c1cxOps : List Op := [Op.setHeader HName.ce "deflate", Op.write [104, 105]]

/-- The buffer as a Go slice: nil when no bytes were ever appended. -/
def mkBuf (w : Bytes) : Option Bytes :=
  if w = [] then none else some w

/-- Headers that keep a response eligible for the deferred decision:
no content-encoding, a content-length that `strconv.Atoi` reads as `0`, and
a content type that is absent or allowed by the policy. -/
def hdrOK (cfg : Config) (h : Headers) : Prop :=
  h.ce = "" ∧ goAtoi h.cl = 0 ∧
    (h.ct = "" ∨ handleContentType cfg.contentTypes h.ct = true)

/-- Whether an operation is a `WriteHeader` call. -/
def isWH : Op → Bool
  | Op.writeHeader _ => true
  | _ => false

/-! ## Basic lemmas about the observables -/

@[simp]
theorem headerCodes_nil : headerCodes [] = [] := rfl

@[simp]
theorem headerCodes_append (a b : List Ev) :
    headerCodes (a ++ b) = headerCodes a ++ headerCodes b := by
  simp [headerCodes]

@[simp]
theorem headerCodes_header (c : Int) (t : List Ev) :
    headerCodes (Ev.header c :: t) = c :: headerCodes t := rfl

@[simp]
theorem headerCodes_write (b : Bytes) (t : List Ev) :
    headerCodes (Ev.write b :: t) = headerCodes t := rfl

@[simp]
theorem headerCodes_gzWrite (b : Bytes) (t : List Ev) :
    headerCodes (Ev.gzWrite b :: t) = headerCodes t := rfl

@[simp]
theorem headerCodes_gzFlush (t : List Ev) :
    headerCodes (Ev.gzFlush :: t) = headerCodes t := rfl

@[simp]
theorem headerCodes_gzClose (t : List Ev) :
    headerCodes (Ev.gzClose :: t) = headerCodes t := rfl

@[simp]
theorem headerCodes_flushed (t : List Ev) :
    headerCodes (Ev.flushed :: t) = headerCodes t := rfl

@[simp]
theorem writtenBytes_nil : writtenBytes [] = [] := rfl

@[simp]
theorem writtenBytes_append (a b : List Ev) :
    writtenBytes (a ++ b) = writtenBytes a ++ writtenBytes b := by
  simp [writtenBytes]

@[simp]
theorem writtenBytes_header (c : Int) (t : List Ev) :
    writtenBytes (Ev.header c :: t) = writtenBytes t := rfl

@[simp]
theorem writtenBytes_write (b : Bytes) (t : List Ev) :
    writtenBytes (Ev.write b :: t) = b ++ writtenBytes t := rfl

@[simp]
theorem gzFree_nil : gzFree [] = true := rfl

@[simp]
theorem gzFree_append (a b : List Ev) :
    gzFree (a ++ b) = (gzFree a && gzFree b) := by
  simp [gzFree]

/-! ## Closed forms for the two commit routines (well-behaved collaborators) -/

/-- Closed form of `startPlain`: emit the pending code if any, mark
passthrough, flush the buffer (fully accepted), and report no error. -/
theorem startPlain_eq (s : St) :
    startPlain s =
      ({ s with
          code := 0
          ignore := true
          buf := none
          out := s.out ++ (if s.code = 0 then [] else [Ev.header s.code]) ++
            (match s.buf with
             | none => []
             | some b => [Ev.write b]) }, none) := by
  rcases s with ⟨hdr, code, buf, ignore, gw, out⟩
  by_cases hc : code = 0 <;>
    cases buf <;>
      simp [startPlain, startPlainWith, shortWriteCheck, lenB, hc]

/-- Closed form of `startGzip`: set the gzip content-encoding, drop the
declared content-length, emit the pending code if any, and when the buffer
is non-empty acquire the compressor and flush the buffer into it; no error
is reported. -/
theorem startGzip_eq (cfg : Config) (s : St) :
    startGzip cfg s =
      ({ s with
          hdr := { s.hdr with ce := "gzip", cl := "" }
          code := 0
          gw := if lenB s.buf > 0 then true else s.gw
          out := s.out ++ (if s.code = 0 then [] else [Ev.header s.code]) ++
            (if lenB s.buf > 0 then [Ev.gzWrite (s.buf.getD [])] else []) }, none) := by
  rcases s with ⟨hdr, code, buf, ignore, gw, out⟩
  by_cases hc : code = 0 <;>
    cases buf with
    | none => simp [startGzip, startGzipWith, shortWriteCheck, lenB, hc]
    | some b =>
      by_cases hb : b.length > 0 <;>
        simp [startGzip, startGzipWith, shortWriteCheck, lenB, hc, hb]

@[simp]
theorem startPlain_fst_ignore (s : St) : (startPlain s).1.ignore = true := by
  rw [startPlain_eq]

@[simp]
theorem runOps_nil (cfg : Config) (s : St) : runOps cfg [] s = s := rfl

@[simp]
theorem runOps_cons (cfg : Config) (op : Op) (t : List Op) (s : St) :
    runOps cfg (op :: t) s = runOps cfg t (step cfg s op) := rfl

@[simp]
theorem runOps_append (cfg : Config) (a b : List Op) (s : St) :
    runOps cfg (a ++ b) s = runOps cfg b (runOps cfg a s) := by
  simp [runOps, List.foldl_append]

/-- `Close` on a state already committed to passthrough is a no-op
(`response.go` lines 176-178). -/
theorem close_ignore (cfg : Config) (s : St) (h : s.ignore = true) :
    close cfg s = (s, none) := by
  simp [close, h]

/-- `Close` with no active compressor and no passthrough commitment runs
`startPlain`, which cannot fail against the well-behaved sink
(`response.go` lines 180-188). -/
theorem close_plain (cfg : Config) (s : St) (h1 : s.ignore = false)
    (h2 : s.gw = false) : close cfg s = ((startPlain s).1, none) := by
  simp [close, h1, h2, startPlain_eq]

/-- `Close` with an active compressor finalizes it, emits the trailer, and
clears the handle (`response.go` lines 190-193). -/
theorem close_gw (cfg : Config) (s : St) (h1 : s.ignore = false)
    (h2 : s.gw = true) :
    close cfg s = ({ s with out := s.out ++ [Ev.gzClose], gw := false }, none) := by
  simp [close, h1, h2]

/-! ## C2: committing to compression fixes the outbound headers -/

/-- C2: whenever the state machine commits to compression (`startGzip`), the
outbound headers carry `Content-Encoding: gzip`, any previously declared
`Content-Length` is removed, the pending status code (if any) is emitted to
the underlying sink exactly once, and the internal pending code is cleared
to `0` so the commit path never emits it again. -/
theorem claim2_commit_gzip_headers (cfg : Config) (s : St) :
    (startGzip cfg s).1.hdr.ce = "gzip" ∧
    (startGzip cfg s).1.hdr.cl = "" ∧
    (startGzip cfg s).1.code = 0 ∧
    headerCodes (startGzip cfg s).1.out =
      headerCodes s.out ++ (if s.code = 0 then [] else [s.code]) := by
  rw [startGzip_eq]
  refine ⟨rfl, rfl, rfl, ?_⟩
  by_cases hc : s.code = 0 <;> by_cases hb : lenB s.buf > 0 <;>
    simp [hc, hb, headerCodes]

/-! ## C3: idempotence of close -/

/-- C3 fails on the code as stated: after a compressed commitment the source
never clears `w.buf`, and the first `Close` clears `w.gw` while leaving
`w.ignore` false, so a second `Close` re-enters `startPlain` and writes the
retained uncompressed buffer to the sink.  Concretely, with a 1-byte
threshold and a single written byte `97`, one close emits nothing in plain
form, while a second close additionally writes `[97]` to the sink. -/
theorem claim3_counterexample :
    (close cfgTiny (close cfgTiny stGz).1).1.out ≠ (close cfgTiny stGz).1.out ∧
    writtenBytes (close cfgTiny (close cfgTiny stGz).1).1.out = [97] ∧
    writtenBytes (close cfgTiny stGz).1.out = [] := by
  refine ⟨by decide, by decide, by decide⟩

/-- C3, amended: calling `close` twice produces exactly the same state (and
hence the same status, headers and sink byte sequence) as calling it once,
provided no compressor handle is active at the first close — that is, after
a passthrough commitment or when no commitment happened at all; the second
close also reports no error. -/
theorem claim3_close_idempotent_without_compressor (cfg : Config) (s : St)
    (h : s.gw = false) :
    close cfg (close cfg s).1 = ((close cfg s).1, none) := by
  by_cases hi : s.ignore = true
  · rw [close_ignore cfg s hi]
    exact close_ignore cfg s hi
  · rw [close_plain cfg s (by simpa using hi) h]
    exact close_ignore cfg _ (startPlain_fst_ignore s)

/-- Witness: the amended C3 applied to a freshly constructed writer. -/
theorem claim3_close_idempotent_without_compressor_witness :
    initSt.gw = false ∧
    close cfgTiny (close cfgTiny initSt).1 = ((close cfgTiny initSt).1, none) :=
  ⟨rfl, claim3_close_idempotent_without_compressor cfgTiny initSt rfl⟩

/-! ## C6: short-write surfacing -/

/-- C6 names a real bug: the source's own comment (`response.go` lines
148-150) says a short write with no explicit error must abort with
`io.ErrShortWrite`, and `startGzip` (lines 123-128) does exactly that; but
`startPlain` assigns `w.buf = nil` (line 147) before its guard reads
`len(w.buf)` (line 151), so on the passthrough path the guard compares
against length `0` and the short write is silently reported as success.
Failing input: 4 buffered bytes `"test"` of which the sink accepts only 2
with a nil error. -/
theorem claim6_short_write_swallowed_on_plain_path :
    (startPlainWith stBuf4 2 none).2 = none ∧
    (startGzipWith cfgTiny stBuf4 2 none).2 = some GoErr.shortWrite := by
  refine ⟨by decide, by decide⟩

/-! ## C8: flush before commitment -/

/-- C8: before any commitment (no active compressor, no passthrough flag),
`Flush` returns the state unchanged — it does not commit, writes nothing,
leaves the pending status code and buffer alone, and does not invoke the
sink's flush capability. -/
theorem claim8_flush_noop_before_commit (s : St)
    (h1 : s.gw = false) (h2 : s.ignore = false) : flush s = s := by
  simp [flush, flushWith, h1, h2]

/-- Witness: C8 applied to a freshly constructed writer. -/
theorem claim8_flush_noop_before_commit_witness :
    initSt.gw = false ∧ initSt.ignore = false ∧ flush initSt = initSt :=
  ⟨rfl, rfl, claim8_flush_noop_before_commit initSt rfl rfl⟩

/-! ## C9: capability forwarding -/

/-- C9 fails on the code as stated: for a sink with no optional capability
at all, the wrapper still advertises the buffered-flush and hijack
capabilities (their methods are declared on `gzipResponseWriter`
unconditionally), so the wrapper's capability set is not equal to the
sink's. -/
theorem claim9_counterexample :
    wrapperCaps ⟨false, false, false⟩ ≠ (⟨false, false, false⟩ : SinkCaps) := by
  decide

/-- C9, amended: the wrapper advertises close-notification exactly when the
sink exposes it, but always advertises flush and hijack; invoking the
wrapper's hijack yields the explicit unsupported error precisely when the
sink is not a hijacker; and flushing the wrapper over a sink without the
flush capability (the `http.Flusher` assertion yields `false`) never invokes
a sink flush — it is a complete no-op before commitment and at most flushes
the compressor afterwards. -/
theorem claim9_capability_forwarding (sink : SinkCaps) :
    (wrapperCaps sink).closeNotifier = sink.closeNotifier ∧
    (wrapperCaps sink).flusher = true ∧
    (wrapperCaps sink).hijacker = true ∧
    (hijackModel sink = HijackRes.unsupportedErr ↔ sink.hijacker = false) ∧
    (∀ s : St, flushWith false s = s ∨
      flushWith false s = { s with out := s.out ++ [Ev.gzFlush] }) := by
  refine ⟨rfl, rfl, rfl, ?_, ?_⟩
  · rcases sink with ⟨f, hj, c⟩
    cases hj <;> simp [hijackModel]
  · intro s
    by_cases h : s.gw = false ∧ s.ignore = false
    · left
      simp [flushWith, h]
    · by_cases hgw : s.gw = true
      · right
        simp [flushWith, h, hgw]
      · left
        simp [flushWith, h, hgw]

/-! ## C10: a silent handler leaves the sink untouched -/

/-- Running only quiet operations from the initial state changes nothing but
the shared header map. -/
theorem quiet_run (cfg : Config) (ops : List Op) (s : St)
    (hops : ops.all quietOp = true)
    (h : s.code = 0 ∧ s.buf = none ∧ s.ignore = false ∧ s.gw = false ∧
      s.out = []) :
    (runOps cfg ops s).code = 0 ∧ (runOps cfg ops s).buf = none ∧
    (runOps cfg ops s).ignore = false ∧ (runOps cfg ops s).gw = false ∧
    (runOps cfg ops s).out = [] := by
  induction ops generalizing s with
  | nil => simpa using h
  | cons op t ih =>
    simp only [List.all_cons, Bool.and_eq_true] at hops
    rw [runOps_cons]
    refine ih (step cfg s op) hops.2 ?_
    obtain ⟨h1, h2, h3, h4, h5⟩ := h
    cases op with
    | setHeader hn v => cases hn <;> simp [step, setHeader, h1, h2, h3, h4, h5]
    | flush => simp [step, flush, flushWith, h3, h4, h1, h2, h5]
    | write b => simp [quietOp] at hops
    | writeHeader c => simp [quietOp] at hops
    | close => simp [quietOp] at hops

/-- C10: if the wrapped handler never writes and never calls
`WriteHeader` — it may still inspect or set headers and call `Flush` — then
the deferred close performs no operation on the underlying sink at all: the
whole request produces an empty sink trace, so neither the sink's
`WriteHeader` nor its `Write` is ever called and an outer layer can still
set the status afterwards. -/
theorem claim10_untouched_sink (cfg : Config) (ops : List Op)
    (hops : ops.all quietOp = true) :
    (runReq cfg ops).out = [] := by
  obtain ⟨h1, h2, h3, h4, h5⟩ :=
    quiet_run cfg ops initSt hops (by simp [initSt])
  unfold runReq
  rw [close_plain cfg _ h3 h4, startPlain_eq]
  simp [h1, h2, h5]

/-- Witness: C10 applied to a handler that sets a content type and flushes. -/
theorem claim10_untouched_sink_witness :
    ([Op.setHeader HName.ct "text/html", Op.flush]).all quietOp = true ∧
    (runReq cfgTiny [Op.setHeader HName.ct "text/html", Op.flush]).out = [] :=
  ⟨by decide, claim10_untouched_sink cfgTiny _ (by decide)⟩

/-! ## Lemmas about single steps -/

@[simp]
theorem setHeader_ignore (s : St) (hn : HName) (v : String) :
    (setHeader s hn v).ignore = s.ignore := by
  cases hn <;> rfl

@[simp]
theorem setHeader_gw (s : St) (hn : HName) (v : String) :
    (setHeader s hn v).gw = s.gw := by
  cases hn <;> rfl

@[simp]
theorem setHeader_out (s : St) (hn : HName) (v : String) :
    (setHeader s hn v).out = s.out := by
  cases hn <;> rfl

@[simp]
theorem setHeader_buf (s : St) (hn : HName) (v : String) :
    (setHeader s hn v).buf = s.buf := by
  cases hn <;> rfl

@[simp]
theorem setHeader_code (s : St) (hn : HName) (v : String) :
    (setHeader s hn v).code = s.code := by
  cases hn <;> rfl

@[simp]
theorem writeHeader_ignore (s : St) (c : Int) :
    (writeHeader s c).ignore = s.ignore := by
  unfold writeHeader
  split <;> rfl

@[simp]
theorem writeHeader_gw (s : St) (c : Int) :
    (writeHeader s c).gw = s.gw := by
  unfold writeHeader
  split <;> rfl

@[simp]
theorem writeHeader_out (s : St) (c : Int) :
    (writeHeader s c).out = s.out := by
  unfold writeHeader
  split <;> rfl

@[simp]
theorem writeHeader_buf (s : St) (c : Int) :
    (writeHeader s c).buf = s.buf := by
  unfold writeHeader
  split <;> rfl

@[simp]
theorem writeHeader_hdr (s : St) (c : Int) :
    (writeHeader s c).hdr = s.hdr := by
  unfold writeHeader
  split <;> rfl

@[simp]
theorem flattenWrites_nil : flattenWrites [] = [] := rfl

@[simp]
theorem flattenWrites_cons_write (b : Bytes) (t : List Op) :
    flattenWrites (Op.write b :: t) = b ++ flattenWrites t := rfl

@[simp]
theorem flattenWrites_cons_setHeader (hn : HName) (v : String) (t : List Op) :
    flattenWrites (Op.setHeader hn v :: t) = flattenWrites t := rfl

@[simp]
theorem flattenWrites_cons_writeHeader (c : Int) (t : List Op) :
    flattenWrites (Op.writeHeader c :: t) = flattenWrites t := rfl

@[simp]
theorem flattenWrites_cons_flush (t : List Op) :
    flattenWrites (Op.flush :: t) = flattenWrites t := rfl

@[simp]
theorem flattenWrites_cons_close (t : List Op) :
    flattenWrites (Op.close :: t) = flattenWrites t := rfl

@[simp]
theorem flattenWrites_append (a b : List Op) :
    flattenWrites (a ++ b) = flattenWrites a ++ flattenWrites b := by
  simp [flattenWrites]

/-- `plainFinish` never fails against the well-behaved sink and accepts the
whole chunk. -/
theorem plainFinish_eq (s : St) (b : Bytes) :
    plainFinish s b = ((startPlain s).1, b.length, none) := by
  unfold plainFinish
  rw [startPlain_eq]

/-! ## C5: a preset non-gzip content-encoding forces passthrough -/

/-- Operations without writes and closes leave the machine fresh: nothing
buffered, nothing committed, nothing emitted. -/
theorem nowrite_run (cfg : Config) (ops : List Op) (s : St)
    (hops : ops.all headerPhaseOp = true)
    (h : s.buf = none ∧ s.ignore = false ∧ s.gw = false ∧ s.out = []) :
    (runOps cfg ops s).buf = none ∧ (runOps cfg ops s).ignore = false ∧
    (runOps cfg ops s).gw = false ∧ (runOps cfg ops s).out = [] := by
  induction ops generalizing s with
  | nil => simpa using h
  | cons op t ih =>
    simp only [List.all_cons, Bool.and_eq_true] at hops
    rw [runOps_cons]
    refine ih (step cfg s op) hops.2 ?_
    obtain ⟨h1, h2, h3, h4⟩ := h
    cases op with
    | setHeader hn v => simp [step, h1, h2, h3, h4]
    | writeHeader c => simp [step, h1, h2, h3, h4]
    | flush => simp [step, flush, flushWith, h2, h3, h1, h4]
    | write b => simp [headerPhaseOp] at hops
    | close => simp [headerPhaseOp] at hops

/-- After a passthrough commitment, every further operation forwards
directly: the commitment is never revisited, the compressor is never
touched, and the sink receives exactly the bytes written. -/
theorem passthrough_run (cfg : Config) (ops : List Op) (s : St)
    (h1 : s.ignore = true) (h2 : s.gw = false) :
    (runOps cfg ops s).ignore = true ∧ (runOps cfg ops s).gw = false ∧
    writtenBytes (runOps cfg ops s).out =
      writtenBytes s.out ++ flattenWrites ops ∧
    gzFree (runOps cfg ops s).out = gzFree s.out := by
  induction ops generalizing s with
  | nil => simp [h1, h2]
  | cons op t ih =>
    rw [runOps_cons]
    cases op with
    | write b =>
      have hs : step cfg s (Op.write b) =
          { s with out := s.out ++ [Ev.write b] } := by
        simp [step, write, h1, h2]
      rw [hs]
      obtain ⟨a1, a2, a3, a4⟩ := ih { s with out := s.out ++ [Ev.write b] }
        (by simp [h1]) (by simp [h2])
      refine ⟨a1, a2, ?_, ?_⟩
      · rw [a3]
        simp [writtenBytes, gzFree]
      · rw [a4]
        simp [gzFree]
    | setHeader hn v =>
      obtain ⟨a1, a2, a3, a4⟩ := ih (setHeader s hn v)
        (by simp [h1]) (by simp [h2])
      exact ⟨a1, a2, by simpa using a3, by simpa using a4⟩
    | writeHeader c =>
      obtain ⟨a1, a2, a3, a4⟩ := ih (writeHeader s c)
        (by simp [h1]) (by simp [h2])
      exact ⟨a1, a2, by simpa using a3, by simpa using a4⟩
    | flush =>
      have hs : step cfg s Op.flush =
          { s with out := s.out ++ [Ev.flushed] } := by
        simp [step, flush, flushWith, h1, h2]
      rw [hs]
      obtain ⟨a1, a2, a3, a4⟩ := ih { s with out := s.out ++ [Ev.flushed] }
        (by simp [h1]) (by simp [h2])
      refine ⟨a1, a2, ?_, ?_⟩
      · rw [a3]
        simp [writtenBytes]
      · rw [a4]
        simp [gzFree]
    | close =>
      have hs : step cfg s Op.close = s := by
        simp [step, close_ignore cfg s h1]
      rw [hs]
      exact ih s h1 h2

/-- A write on an uncommitted writer whose response already declares a
content-encoding immediately commits to passthrough (`response.go` line 70
fails, line 92 runs). -/
theorem write_ce_commits_plain (cfg : Config) (s : St) (b : Bytes)
    (hgw : s.gw = false) (hig : s.ignore = false) (hce : ¬s.hdr.ce = "") :
    write cfg s b =
      ((startPlain { s with buf := goAppend s.buf b }).1, b.length, none) := by
  rw [← plainFinish_eq]
  simp [write, hgw, hig, hce]

/-- Operations without writes contribute no body bytes. -/
theorem flattenWrites_headerPhase (ops : List Op)
    (h : ops.all headerPhaseOp = true) : flattenWrites ops = [] := by
  induction ops with
  | nil => rfl
  | cons op t ih =>
    simp only [List.all_cons, Bool.and_eq_true] at h
    cases op with
    | setHeader hn v => simpa using ih h.2
    | writeHeader c => simpa using ih h.2
    | flush => simpa using ih h.2
    | write bb => simp [headerPhaseOp] at h
    | close => simp [headerPhaseOp] at h

/-- The state right after a first write that commits to passthrough from a
fresh buffer: committed, compressor-free, and exactly the written bytes on
the sink. -/
theorem first_write_plain_state (s0 : St) (b : Bytes)
    (hb : s0.buf = none) (hg : s0.gw = false) (ho : s0.out = []) :
    (startPlain { s0 with buf := goAppend s0.buf b }).1.ignore = true ∧
    (startPlain { s0 with buf := goAppend s0.buf b }).1.gw = false ∧
    writtenBytes (startPlain { s0 with buf := goAppend s0.buf b }).1.out = b ∧
    gzFree (startPlain { s0 with buf := goAppend s0.buf b }).1.out = true := by
  rw [startPlain_eq]
  refine ⟨rfl, hg, ?_, ?_⟩
  · by_cases hc : s0.code = 0 <;> by_cases hbe : b = [] <;>
      simp [hb, goAppend, hbe, hc, ho, writtenBytes]
  · by_cases hc : s0.code = 0 <;> by_cases hbe : b = [] <;>
      simp [hb, goAppend, hbe, hc, ho, gzFree]

set_option linter.unusedVariables false in
/-- C5: if the handler sets an explicit non-gzip content-encoding before its
first write, the machine commits to passthrough at that write and every
body byte reaches the underlying sink unmodified — the compressor is never
involved — whatever the size of the response.  (The code commits to
passthrough for any non-empty preset content-encoding; the `hcegz`
hypothesis only restricts the statement to the claim's scope.) -/
theorem claim5_preset_encoding_passthrough (cfg : Config) (pre : List Op)
    (b : Bytes) (rest : List Op)
    (hpre : pre.all headerPhaseOp = true)
    (hce : ¬(runOps cfg pre initSt).hdr.ce = "")
    (hcegz : (runOps cfg pre initSt).hdr.ce ≠ "gzip") :
    gzFree (runReq cfg (pre ++ Op.write b :: rest)).out = true ∧
    writtenBytes (runReq cfg (pre ++ Op.write b :: rest)).out =
      flattenWrites (pre ++ Op.write b :: rest) := by
  obtain ⟨hb, hi, hg, ho⟩ := nowrite_run cfg pre initSt hpre (by simp [initSt])
  have hfw0 : flattenWrites pre = [] := flattenWrites_headerPhase pre hpre
  have hstep : step cfg (runOps cfg pre initSt) (Op.write b) =
      (startPlain { runOps cfg pre initSt with
        buf := goAppend (runOps cfg pre initSt).buf b }).1 := by
    simp [step, write_ce_commits_plain cfg _ b hg hi hce]
  obtain ⟨q1, q2, q3, q4⟩ :=
    first_write_plain_state (runOps cfg pre initSt) b hb hg ho
  obtain ⟨p1, p2, p3, p4⟩ := passthrough_run cfg rest
    (startPlain { runOps cfg pre initSt with
      buf := goAppend (runOps cfg pre initSt).buf b }).1 q1 q2
  unfold runReq
  rw [runOps_append, runOps_cons, hstep, close_ignore cfg _ p1]
  refine ⟨?_, ?_⟩
  · rw [p4, q4]
  · rw [p3, q3]
    simp [hfw0]

/-- Witness: C5 applied to a handler that presets `Content-Encoding:
deflate` and then writes 8 bytes across two writes, above the 5-byte
threshold. -/
theorem claim5_preset_encoding_passthrough_witness :
    (([Op.setHeader HName.ce "deflate"] : List Op).all headerPhaseOp = true ∧
      ¬(runOps cfgSmall [Op.setHeader HName.ce "deflate"] initSt).hdr.ce = "" ∧
      (runOps cfgSmall [Op.setHeader HName.ce "deflate"] initSt).hdr.ce ≠
        "gzip") ∧
    (gzFree (runReq cfgSmall ([Op.setHeader HName.ce "deflate"] ++
        Op.write [1, 2, 3, 4, 5, 6, 7] :: [Op.write [8]])).out = true ∧
      writtenBytes (runReq cfgSmall ([Op.setHeader HName.ce "deflate"] ++
        Op.write [1, 2, 3, 4, 5, 6, 7] :: [Op.write [8]])).out =
        flattenWrites ([Op.setHeader HName.ce "deflate"] ++
          Op.write [1, 2, 3, 4, 5, 6, 7] :: [Op.write [8]])) :=
  ⟨⟨by decide, by decide, by decide⟩,
    claim5_preset_encoding_passthrough cfgSmall _ _ _ (by decide) (by decide)
      (by decide)⟩


/-! ## C7: the content-type matcher's equality rule -/

@[simp]
theorem lookupParam_nil (k : String) : lookupParam [] k = none := rfl

@[simp]
theorem lookupParam_cons (a : String × String) (t : List (String × String))
    (k : String) :
    lookupParam (a :: t) k = if a.1 = k then some a.2 else lookupParam t k := by
  by_cases h : a.1 = k
  · simp [lookupParam, List.find?, h]
  · have hb : (a.1 == k) = false := beq_eq_false_iff_ne.2 h
    simp [lookupParam, List.find?, hb, h]

/-- A successful lookup exhibits a member of the association list. -/
theorem lookupParam_mem {t : List (String × String)} {k v : String}
    (h : lookupParam t k = some v) : (k, v) ∈ t := by
  induction t with
  | nil => simp at h
  | cons a t ih =>
    rw [lookupParam_cons] at h
    by_cases ha : a.1 = k
    · rw [if_pos ha] at h
      injection h with h2
      subst h2
      subst ha
      simp
    · exact List.mem_cons_of_mem a (ih (by simpa [ha] using h))

/-- With distinct keys, every member is found by lookup. -/
theorem lookupParam_eq_some_of_mem {t : List (String × String)}
    (hn : (t.map Prod.fst).Nodup) {k v : String} (hm : (k, v) ∈ t) :
    lookupParam t k = some v := by
  induction t with
  | nil => simp at hm
  | cons a t ih =>
    simp only [List.map_cons, List.nodup_cons] at hn
    rcases List.mem_cons.1 hm with h | h
    · cases h
      simp
    · have hne : a.1 ≠ k := by
        intro he
        exact hn.1 (he ▸ List.mem_map.2 ⟨(k, v), h, rfl⟩)
      rw [lookupParam_cons, if_neg hne]
      exact ih hn.2 h

/-- A key is found exactly when it occurs among the keys. -/
theorem lookupParam_isSome_iff {t : List (String × String)} {k : String} :
    (lookupParam t k).isSome = true ↔ k ∈ t.map Prod.fst := by
  induction t with
  | nil => simp
  | cons a t ih =>
    rw [lookupParam_cons]
    by_cases ha : a.1 = k
    · simp [ha]
    · rw [if_neg ha]
      simp only [List.map_cons, List.mem_cons, ih]
      constructor
      · exact fun h => Or.inr h
      · rintro (rfl | h)
        · exact absurd rfl ha
        · exact h

/-- Two association lists with distinct keys agree on every lookup exactly
when they have equal length and the first is pointwise contained in the
second. -/
theorem assoc_subset_length_iff (l₁ l₂ : List (String × String))
    (h1 : (l₁.map Prod.fst).Nodup) (h2 : (l₂.map Prod.fst).Nodup) :
    (l₁.length = l₂.length ∧
      ∀ kv ∈ l₁, lookupParam l₂ kv.1 = some kv.2) ↔
    ∀ k, lookupParam l₁ k = lookupParam l₂ k := by
  constructor
  · rintro ⟨hlen, hall⟩ k
    cases hk : lookupParam l₁ k with
    | some v => exact (hall (k, v) (lookupParam_mem hk)).symm
    | none =>
      have hsub : l₁.map Prod.fst ⊆ l₂.map Prod.fst := by
        intro k' hk'
        obtain ⟨kv, hkv, rfl⟩ := List.mem_map.1 hk'
        exact lookupParam_isSome_iff.1 (by rw [hall kv hkv]; rfl)
      have hperm : List.Perm (l₁.map Prod.fst) (l₂.map Prod.fst) :=
        (h1.subperm hsub).perm_of_length_le (by simp [hlen])
      cases hk2 : lookupParam l₂ k with
      | none => rfl
      | some w =>
        have hmem : k ∈ l₁.map Prod.fst :=
          hperm.mem_iff.2 (lookupParam_isSome_iff.1 (by rw [hk2]; rfl))
        have := lookupParam_isSome_iff.2 hmem
        rw [hk] at this
        simp at this
  · intro h
    have hsub1 : l₁.map Prod.fst ⊆ l₂.map Prod.fst := by
      intro k hk
      have hs := lookupParam_isSome_iff.2 hk
      rw [h k] at hs
      exact lookupParam_isSome_iff.1 hs
    have hsub2 : l₂.map Prod.fst ⊆ l₁.map Prod.fst := by
      intro k hk
      have hs := lookupParam_isSome_iff.2 hk
      rw [← h k] at hs
      exact lookupParam_isSome_iff.1 hs
    refine ⟨?_, ?_⟩
    · have := ((h1.subperm hsub1).antisymm (h2.subperm hsub2)).length_eq
      simpa using this
    · intro kv hm
      rw [← h kv.1]
      exact lookupParam_eq_some_of_mem h1 hm

/-- C7 fails on the code as stated: `parsedContentType.equals` also requires
the candidate to carry no directives beyond the configured ones
(`len(pct.params) != len(params)` returns false, `response.go` line 247), as
its own documentation in `ContentTypes` states.  Concretely, the configured
matcher `application/json; charset=utf-8` does not match the candidate
`application/json` with directives `charset=utf-8` and `foo=bar`, although
the claimed rule accepts it. -/
theorem claim7_counterexample :
    claimedEquals ⟨"application/json", [("charset", "utf-8")]⟩
      "application/json" [("charset", "utf-8"), ("foo", "bar")] = true ∧
    parsedContentType.equals ⟨"application/json", [("charset", "utf-8")]⟩
      "application/json" [("charset", "utf-8"), ("foo", "bar")] = false := by
  refine ⟨by decide, by decide⟩

theorem paramMatches_eq_true (ps : List (String × String))
    (kv : String × String) :
    paramMatches ps kv = true ↔ lookupParam ps kv.1 = some kv.2 := by
  unfold paramMatches
  cases h : lookupParam ps kv.1 with
  | none =>
    constructor
    · intro hh
      exact absurd hh (by simp)
    · intro hh
      exact absurd hh (by simp)
  | some w =>
    constructor
    · intro hh
      simp only [beq_iff_eq] at hh
      rw [hh]
    · intro hh
      injection hh with hh2
      simp [hh2]

/-- What `parsedContentType.equals` decides, spelt out: equal media types,
and either no configured directives or directive maps of equal size with
every configured directive found with an equal value. -/
theorem equals_eq_true_iff (pct : parsedContentType) (mt : String)
    (ps : List (String × String)) :
    pct.equals mt ps = true ↔
      (pct.mediaType = mt ∧
        (pct.params = [] ∨
          (pct.params.length = ps.length ∧
            ∀ kv ∈ pct.params, lookupParam ps kv.1 = some kv.2))) := by
  by_cases hmt : pct.mediaType = mt
  · by_cases hp : pct.params = []
    · simp [parsedContentType.equals, hmt, hp]
    · have hlen0 : ¬pct.params.length = 0 := by
        simpa [List.length_eq_zero] using hp
      by_cases hl : pct.params.length = ps.length
      · simp [parsedContentType.equals, hmt, hp, hlen0, hl, List.all_eq_true,
          paramMatches_eq_true]
        intro hps
        rw [hps] at hl
        simp at hl
        exact absurd hl hp
      · simp [parsedContentType.equals, hmt, hp, hlen0, hl]
  · simp [parsedContentType.equals, hmt]

/-- C7, amended: for matchers and candidates in parsed form (base types are
lowercased by media-type parsing, which realizes the case-insensitive
comparison), a configured matcher with zero directives matches any candidate
sharing its base type; a configured matcher with directives matches exactly
the candidates with equal base type and an identical directive map — every
configured directive present with an equal value and no additional candidate
directives. -/
theorem claim7_matcher_asymmetric_equality (pct : parsedContentType)
    (mt : String) (ps : List (String × String))
    (h1 : (pct.params.map Prod.fst).Nodup)
    (h2 : (ps.map Prod.fst).Nodup) :
    pct.equals mt ps = true ↔
      (pct.mediaType = mt ∧
        (pct.params = [] ∨
          ∀ k, lookupParam pct.params k = lookupParam ps k)) := by
  rw [← assoc_subset_length_iff pct.params ps h1 h2]
  exact equals_eq_true_iff pct mt ps

/-- Witness: the amended C7 applied to the matcher `text/html; level=1` and
the identical candidate directive map. -/
theorem claim7_matcher_asymmetric_equality_witness :
    ((([("level", "1")] : List (String × String)).map Prod.fst).Nodup ∧
      (([("level", "1")] : List (String × String)).map Prod.fst).Nodup) ∧
    (parsedContentType.equals ⟨"text/html", [("level", "1")]⟩ "text/html"
        [("level", "1")] = true ↔
      ("text/html" = "text/html" ∧
        (([("level", "1")] : List (String × String)) = [] ∨
          ∀ k, lookupParam [("level", "1")] k =
            lookupParam [("level", "1")] k))) :=
  ⟨⟨by decide, by decide⟩,
    claim7_matcher_asymmetric_equality ⟨"text/html", [("level", "1")]⟩
      "text/html" [("level", "1")] (by decide) (by decide)⟩

/-! ## C1: small responses with no declared length stay buffered -/

@[simp]
theorem lenB_mkBuf (w : Bytes) : lenB (mkBuf w) = w.length := by
  by_cases h : w = [] <;> simp [mkBuf, lenB, h]

@[simp]
theorem goAppend_mkBuf (w b : Bytes) :
    goAppend (mkBuf w) b = mkBuf (w ++ b) := by
  by_cases hw : w = []
  · subst hw
    by_cases hb : b = [] <;> simp [mkBuf, goAppend, hb]
  · have hwb : ¬w ++ b = [] := by simp [hw]
    simp [mkBuf, goAppend, hw, hwb]

/-- On an uncommitted writer with eligible headers, a write that keeps the
buffer below the threshold is fully accepted and only grows the buffer
(`response.go` lines 72-74). -/
theorem c1_write_step (cfg : Config) (s : St) (b w : Bytes)
    (hbuf : s.buf = mkBuf w) (hig : s.ignore = false) (hgw : s.gw = false)
    (hh : hdrOK cfg s.hdr)
    (hlen : (w ++ b).length < cfg.minSize) :
    write cfg s b = ({ s with buf := mkBuf (w ++ b) }, b.length, none) := by
  obtain ⟨hce, hcl, hct⟩ := hh
  simp only [write, hgw, hig, Bool.false_eq_true, if_false, hbuf,
    goAppend_mkBuf]
  rw [if_pos ⟨hce, Or.inl hcl, hct⟩,
    if_pos ⟨by rw [lenB_mkBuf]; exact hlen, hcl⟩]

/-- The deferred-decision invariant: as long as every operation is in the
amended C1 alphabet and the total written bytes stay below the threshold,
the machine stays uncommitted with an untouched sink, the buffer holds
exactly the written bytes and the headers stay eligible. -/
theorem c1_run (cfg : Config) (ops : List Op) (s : St) (w : Bytes)
    (hops : ops.all (c1opOK cfg) = true)
    (hlen : w.length + (flattenWrites ops).length < cfg.minSize)
    (hbuf : s.buf = mkBuf w) (hig : s.ignore = false) (hgw : s.gw = false)
    (hout : s.out = []) (hh : hdrOK cfg s.hdr) :
    (runOps cfg ops s).buf = mkBuf (w ++ flattenWrites ops) ∧
    (runOps cfg ops s).ignore = false ∧
    (runOps cfg ops s).gw = false ∧
    (runOps cfg ops s).out = [] ∧
    hdrOK cfg (runOps cfg ops s).hdr := by
  induction ops generalizing s w with
  | nil => simpa [hbuf, hig, hgw, hout] using hh
  | cons op t ih =>
    simp only [List.all_cons, Bool.and_eq_true] at hops
    rw [runOps_cons]
    cases op with
    | write b =>
      have hlb : (w ++ b).length < cfg.minSize := by
        simp only [flattenWrites_cons_write, List.length_append] at hlen ⊢
        omega
      have hstep : step cfg s (Op.write b) = { s with buf := mkBuf (w ++ b) } := by
        simp [step, c1_write_step cfg s b w hbuf hig hgw ⟨hh.1, hh.2.1, hh.2.2⟩ hlb]
      rw [hstep]
      have hr := ih { s with buf := mkBuf (w ++ b) } (w ++ b) hops.2
        (by
          simp only [flattenWrites_cons_write, List.length_append] at hlen ⊢
          omega)
        rfl hig hgw hout hh
      simpa [List.append_assoc] using hr
    | setHeader hn v =>
      have hstep : step cfg s (Op.setHeader hn v) = setHeader s hn v := rfl
      rw [hstep]
      have hh2 : hdrOK cfg (setHeader s hn v).hdr := by
        obtain ⟨hce, hcl, hct⟩ := hh
        cases hn with
        | ce =>
          have hv : v = "" := by simpa [c1opOK] using hops.1
          exact ⟨by simp [setHeader, hv], by simpa [setHeader] using hcl,
            by simpa [setHeader] using hct⟩
        | cl =>
          have hv : goAtoi v = 0 := by simpa [c1opOK] using hops.1
          exact ⟨by simpa [setHeader] using hce, by simpa [setHeader] using hv,
            by simpa [setHeader] using hct⟩
        | ct =>
          have hv : v = "" ∨ handleContentType cfg.contentTypes v = true := by
            simpa [c1opOK] using hops.1
          exact ⟨by simpa [setHeader] using hce, by simpa [setHeader] using hcl,
            by simpa [setHeader] using hv⟩
      have hr := ih (setHeader s hn v) w hops.2 (by simpa using hlen)
        (by simpa using hbuf) (by simpa using hig) (by simpa using hgw)
        (by simpa using hout) hh2
      simpa using hr
    | writeHeader c =>
      have hstep : step cfg s (Op.writeHeader c) = writeHeader s c := rfl
      rw [hstep]
      have hr := ih (writeHeader s c) w hops.2 (by simpa using hlen)
        (by simpa using hbuf) (by simpa using hig) (by simpa using hgw)
        (by simpa using hout) (by simpa [writeHeader_hdr] using hh)
      simpa using hr
    | flush =>
      have hstep : step cfg s Op.flush = s := by
        simp [step, flush, flushWith, hgw, hig]
      rw [hstep]
      exact ih s w hops.2 (by simpa using hlen) hbuf hig hgw hout hh
    | close => simp [c1opOK] at hops

/-- C1 fails on the code as stated: a response whose two written bytes stay
below the 5-byte threshold and which declares no content-length is
nevertheless committed at its very first write — and finishes with a
content-encoding header — when the handler preset
`Content-Encoding: deflate`, because the eligibility test of
`response.go` line 70 fails before the size heuristic is consulted. -/
theorem claim1_counterexample :
    (flattenWrites c1cxOps).length < cfgSmall.minSize ∧
    (runOps cfgSmall c1cxOps initSt).hdr.cl = "" ∧
    committed (runOps cfgSmall c1cxOps initSt) = true ∧
    ¬(runReq cfgSmall c1cxOps).hdr.ce = "" := by
  refine ⟨by decide, by decide, by decide, by decide⟩

/-- C1, amended: for every response whose total written bytes stay below the
minimum-size threshold, which never declares a content-length, never sets a
content-encoding, only sets content types the policy allows, and does not
close itself: every write is reported as fully accepted without committing,
and after the deferred close the bytes emitted to the underlying sink equal
the handler's written bytes, no compression is applied, and no
content-encoding header is set. -/
theorem claim1_small_response_buffered (cfg : Config) (ops : List Op)
    (hops : ops.all (c1opOK cfg) = true)
    (hsize : (flattenWrites ops).length < cfg.minSize) :
    (∀ l b r, ops = l ++ Op.write b :: r →
      (write cfg (runOps cfg l initSt) b).2 = (b.length, none) ∧
      committed (write cfg (runOps cfg l initSt) b).1 = false) ∧
    writtenBytes (runReq cfg ops).out = flattenWrites ops ∧
    gzFree (runReq cfg ops).out = true ∧
    (runReq cfg ops).hdr.ce = "" := by
  have hinitH : hdrOK cfg initSt.hdr := ⟨rfl, by decide, Or.inl rfl⟩
  constructor
  · rintro l b r rfl
    have hl : l.all (c1opOK cfg) = true := by
      simp only [List.all_append, List.all_cons, Bool.and_eq_true] at hops
      exact hops.1
    have hlsize : ([] : Bytes).length + (flattenWrites l).length < cfg.minSize := by
      simp only [flattenWrites_append, flattenWrites_cons_write,
        List.length_append, List.length_nil] at hsize ⊢
      omega
    obtain ⟨hbuf, hig, hgw, hout, hh⟩ := c1_run cfg l initSt [] hl hlsize
      (by simp [initSt, mkBuf]) rfl rfl rfl hinitH
    have hlb : (flattenWrites l ++ b).length < cfg.minSize := by
      simp only [flattenWrites_append, flattenWrites_cons_write,
        List.length_append] at hsize ⊢
      omega
    have hws := c1_write_step cfg (runOps cfg l initSt) b (flattenWrites l)
      (by simpa using hbuf) hig hgw hh hlb
    rw [hws]
    exact ⟨rfl, by simp [committed, hig, hgw]⟩
  · obtain ⟨hbuf, hig, hgw, hout, hh⟩ := c1_run cfg ops initSt [] hops
      (by simpa using hsize) (by simp [initSt, mkBuf]) rfl rfl rfl hinitH
    unfold runReq
    rw [close_plain cfg _ hig hgw, startPlain_eq]
    have hce := hh.1
    refine ⟨?_, ?_, hce⟩
    · rw [hout, hbuf]
      by_cases hc : (runOps cfg ops initSt).code = 0 <;>
        by_cases hfe : ([] : Bytes) ++ flattenWrites ops = [] <;>
          simp only [List.nil_append] at hfe ⊢ <;>
            simp [mkBuf, hc, hfe, writtenBytes]
    · rw [hout, hbuf]
      by_cases hc : (runOps cfg ops initSt).code = 0 <;>
        by_cases hfe : ([] : Bytes) ++ flattenWrites ops = [] <;>
          simp only [List.nil_append] at hfe ⊢ <;>
            simp [mkBuf, hc, hfe, gzFree]

/-- Witness: the amended C1 applied to a handler that sets a status and
writes 2 bytes against a 5-byte threshold. -/
theorem claim1_small_response_buffered_witness :
    (([Op.writeHeader 200, Op.write [104, 105]]).all (c1opOK cfgSmall) = true ∧
      (flattenWrites [Op.writeHeader 200, Op.write [104, 105]]).length <
        cfgSmall.minSize) ∧
    ((∀ l b r, [Op.writeHeader 200, Op.write [104, 105]] =
        l ++ Op.write b :: r →
      (write cfgSmall (runOps cfgSmall l initSt) b).2 = (b.length, none) ∧
      committed (write cfgSmall (runOps cfgSmall l initSt) b).1 = false) ∧
    writtenBytes (runReq cfgSmall [Op.writeHeader 200, Op.write [104, 105]]).out =
      flattenWrites [Op.writeHeader 200, Op.write [104, 105]] ∧
    gzFree (runReq cfgSmall [Op.writeHeader 200, Op.write [104, 105]]).out = true ∧
    (runReq cfgSmall [Op.writeHeader 200, Op.write [104, 105]]).hdr.ce = "") :=
  ⟨⟨by decide, by decide⟩,
    claim1_small_response_buffered cfgSmall _ (by decide) (by decide)⟩

/-! ## C4: the first recorded status code is the one emitted -/

/-- `WriteHeader` on a writer that already recorded a code is a no-op
(`response.go` line 159). -/
theorem writeHeader_noop (s : St) (c : Int) (h : ¬s.code = 0) :
    writeHeader s c = s := by
  simp [writeHeader, h]

/-- A write on an uncommitted writer either just buffers, or forwards to
`startGzip`, or forwards to `startPlain`; in the latter two cases the
intermediate state differs from `s` only in its buffer and possibly a
sniffed content type. -/
theorem write_uncommitted_cases (cfg : Config) (s : St) (b : Bytes)
    (h3 : s.ignore = false) (h4 : s.gw = false) :
    (write cfg s b).1 = { s with buf := goAppend s.buf b } ∨
    (∃ s2, (write cfg s b).1 = (startGzip cfg s2).1 ∧ s2.out = s.out ∧
      s2.code = s.code ∧ s2.ignore = s.ignore ∧ s2.gw = s.gw ∧
      s2.buf = goAppend s.buf b) ∨
    (∃ s2, (write cfg s b).1 = (startPlain s2).1 ∧ s2.out = s.out ∧
      s2.code = s.code ∧ s2.ignore = s.ignore ∧ s2.gw = s.gw ∧
      s2.buf = goAppend s.buf b) := by
  simp only [write, h3, h4, Bool.false_eq_true, if_false]
  split
  · split
    · left
      rfl
    · split
      · split
        · split
          · right
            left
            refine ⟨{
                hdr := { cl := s.hdr.cl, ct := cfg.detect ((goAppend s.buf b).getD []), ce := s.hdr.ce }
                code := s.code
                buf := goAppend s.buf b
                ignore := false
                gw := false
                out := s.out }, ?_, rfl, rfl, rfl, rfl, rfl⟩
            generalize startGzip cfg {
                hdr := { cl := s.hdr.cl, ct := cfg.detect ((goAppend s.buf b).getD []), ce := s.hdr.ce }
                code := s.code
                buf := goAppend s.buf b
                ignore := false
                gw := false
                out := s.out } = pr
            rcases pr with ⟨st, err⟩
            cases err <;> rfl
          · right
            right
            refine ⟨{
                hdr := { cl := s.hdr.cl, ct := cfg.detect ((goAppend s.buf b).getD []), ce := s.hdr.ce }
                code := s.code
                buf := goAppend s.buf b
                ignore := false
                gw := false
                out := s.out }, ?_, rfl, rfl, rfl, rfl, rfl⟩
            rw [plainFinish_eq]
        · split
          · right
            left
            refine ⟨{
                hdr := s.hdr
                code := s.code
                buf := goAppend s.buf b
                ignore := false
                gw := false
                out := s.out }, ?_, rfl, rfl, rfl, rfl, rfl⟩
            generalize startGzip cfg {
                hdr := s.hdr
                code := s.code
                buf := goAppend s.buf b
                ignore := false
                gw := false
                out := s.out } = pr
            rcases pr with ⟨st, err⟩
            cases err <;> rfl
          · right
            right
            refine ⟨{
                hdr := s.hdr
                code := s.code
                buf := goAppend s.buf b
                ignore := false
                gw := false
                out := s.out }, ?_, rfl, rfl, rfl, rfl, rfl⟩
            rw [plainFinish_eq]
      · right
        right
        refine ⟨{
            hdr := s.hdr
            code := s.code
            buf := goAppend s.buf b
            ignore := false
            gw := false
            out := s.out }, ?_, rfl, rfl, rfl, rfl, rfl⟩
        rw [plainFinish_eq]
  · right
    right
    refine ⟨{
        hdr := s.hdr
        code := s.code
        buf := goAppend s.buf b
        ignore := false
        gw := false
        out := s.out }, ?_, rfl, rfl, rfl, rfl, rfl⟩
    rw [plainFinish_eq]

/-- Every step only appends to the sink trace. -/
theorem step_out_mono (cfg : Config) (s : St) (op : Op) :
    ∃ t, (step cfg s op).out = s.out ++ t := by
  cases op with
  | setHeader hn v => exact ⟨[], by simp [step]⟩
  | writeHeader c => exact ⟨[], by simp [step]⟩
  | flush =>
    show ∃ t, (flush s).out = s.out ++ t
    by_cases h : s.gw = false ∧ s.ignore = false
    · exact ⟨[], by simp [flush, flushWith, h]⟩
    · by_cases hgw : s.gw = true
      · exact ⟨[Ev.gzFlush, Ev.flushed], by simp [flush, flushWith, h, hgw]⟩
      · have hig : ¬s.ignore = false := fun hi => h ⟨by simpa using hgw, hi⟩
        exact ⟨[Ev.flushed], by simp [flush, flushWith, h, hgw, hig]⟩
  | close =>
    show ∃ t, (close cfg s).1.out = s.out ++ t
    by_cases hi : s.ignore = true
    · rw [close_ignore cfg s hi]
      exact ⟨[], by simp⟩
    · by_cases hgw : s.gw = true
      · rw [close_gw cfg s (by simpa using hi) hgw]
        exact ⟨[Ev.gzClose], rfl⟩
      · rw [close_plain cfg s (by simpa using hi) (by simpa using hgw),
          startPlain_eq]
        exact ⟨_, List.append_assoc _ _ _⟩
  | write b =>
    show ∃ t, (write cfg s b).1.out = s.out ++ t
    by_cases hgw : s.gw = true
    · have hh : (write cfg s b).1 = { s with out := s.out ++ [Ev.gzWrite b] } := by
        simp [write, hgw]
      rw [hh]
      exact ⟨[Ev.gzWrite b], rfl⟩
    · by_cases hi : s.ignore = true
      · have hh : (write cfg s b).1 = { s with out := s.out ++ [Ev.write b] } := by
          simp [write, hi, hgw]
        rw [hh]
        exact ⟨[Ev.write b], rfl⟩
      · rcases write_uncommitted_cases cfg s b (by simpa using hi)
          (by simpa using hgw) with h | ⟨s2, h, ho, -, -, -, -⟩ | ⟨s2, h, ho, -, -, -, -⟩
        · rw [h]
          exact ⟨[], by simp⟩
        · rw [h, startGzip_eq, ← ho]
          exact ⟨_, List.append_assoc _ _ _⟩
        · rw [h, startPlain_eq, ← ho]
          exact ⟨_, List.append_assoc _ _ _⟩

/-- `startPlain` with no pending code emits no status and keeps the code
cleared. -/
theorem startPlain_code0 (s : St) (h : s.code = 0) :
    (startPlain s).1.code = 0 ∧
    headerCodes (startPlain s).1.out = headerCodes s.out := by
  rw [startPlain_eq]
  refine ⟨rfl, ?_⟩
  cases hb : s.buf <;> simp [h]

/-- `startGzip` with no pending code emits no status and keeps the code
cleared. -/
theorem startGzip_code0 (cfg : Config) (s : St) (h : s.code = 0) :
    (startGzip cfg s).1.code = 0 ∧
    headerCodes (startGzip cfg s).1.out = headerCodes s.out := by
  rw [startGzip_eq]
  refine ⟨rfl, ?_⟩
  by_cases hb : lenB s.buf > 0 <;> simp [h, hb]

/-- Any operation other than `WriteHeader` keeps a cleared pending code
cleared and emits no status to the sink. -/
theorem step_code0 (cfg : Config) (s : St) (op : Op) (h : s.code = 0)
    (hwh : isWH op = false) :
    (step cfg s op).code = 0 ∧
    headerCodes (step cfg s op).out = headerCodes s.out := by
  cases op with
  | writeHeader c => simp [isWH] at hwh
  | setHeader hn v => exact ⟨by simp [step, h], by simp [step]⟩
  | flush =>
    show (flush s).code = 0 ∧ headerCodes (flush s).out = headerCodes s.out
    by_cases hcond : s.gw = false ∧ s.ignore = false
    · exact ⟨by simp [flush, flushWith, hcond, h],
        by simp [flush, flushWith, hcond]⟩
    · by_cases hgw : s.gw = true
      · exact ⟨by simp [flush, flushWith, hcond, hgw, h],
          by simp [flush, flushWith, hcond, hgw]⟩
      · have hig : ¬s.ignore = false := fun hi => hcond ⟨by simpa using hgw, hi⟩
        exact ⟨by simp [flush, flushWith, hcond, hgw, hig, h],
          by simp [flush, flushWith, hcond, hgw, hig]⟩
  | close =>
    show (close cfg s).1.code = 0 ∧
      headerCodes (close cfg s).1.out = headerCodes s.out
    by_cases hi : s.ignore = true
    · rw [close_ignore cfg s hi]
      exact ⟨h, rfl⟩
    · by_cases hgw : s.gw = true
      · rw [close_gw cfg s (by simpa using hi) hgw]
        exact ⟨h, by simp⟩
      · rw [close_plain cfg s (by simpa using hi) (by simpa using hgw)]
        exact startPlain_code0 s h
  | write b =>
    show (write cfg s b).1.code = 0 ∧
      headerCodes (write cfg s b).1.out = headerCodes s.out
    by_cases hgw : s.gw = true
    · have hh : (write cfg s b).1 = { s with out := s.out ++ [Ev.gzWrite b] } := by
        simp [write, hgw]
      rw [hh]
      exact ⟨h, by simp⟩
    · by_cases hi : s.ignore = true
      · have hh : (write cfg s b).1 = { s with out := s.out ++ [Ev.write b] } := by
          simp [write, hi, hgw]
        rw [hh]
        exact ⟨h, by simp⟩
      · rcases write_uncommitted_cases cfg s b (by simpa using hi)
          (by simpa using hgw) with hcase | ⟨s2, heq, ho, hcode, -, -, -⟩ |
            ⟨s2, heq, ho, hcode, -, -, -⟩
        · rw [hcase]
          exact ⟨h, rfl⟩
        · rw [heq]
          obtain ⟨g1, g2⟩ := startGzip_code0 cfg s2 (hcode.trans h)
          exact ⟨g1, by rw [g2, ho]⟩
        · rw [heq]
          obtain ⟨g1, g2⟩ := startPlain_code0 s2 (hcode.trans h)
          exact ⟨g1, by rw [g2, ho]⟩

/-- Before the first `WriteHeader`, the pending code stays `0` and no status
reaches the sink. -/
theorem code0_run (cfg : Config) (ops : List Op) (s : St)
    (hops : ops.all (fun op => !isWH op) = true)
    (h1 : s.code = 0) (h2 : headerCodes s.out = []) :
    (runOps cfg ops s).code = 0 ∧
    headerCodes (runOps cfg ops s).out = [] := by
  induction ops generalizing s with
  | nil => exact ⟨h1, h2⟩
  | cons op t ih =>
    simp only [List.all_cons, Bool.and_eq_true, Bool.not_eq_true'] at hops
    rw [runOps_cons]
    obtain ⟨c1, c2⟩ := step_code0 cfg s op h1 hops.1
    exact ih _ hops.2 c1 (by rw [c2, h2])

/-- Once the first valid status code `c` has been recorded on an uncommitted
writer, every state reachable by further operations either still holds `c`
pending with nothing emitted, or has emitted `c` as the first status. -/
theorem statusJ_step (cfg : Config) (s : St) (op : Op) (c : Int) (hc : ¬c = 0)
    (hJ : (s.code = c ∧ headerCodes s.out = [] ∧ s.ignore = false ∧
        s.gw = false) ∨ (∃ r, headerCodes s.out = c :: r)) :
    ((step cfg s op).code = c ∧ headerCodes (step cfg s op).out = [] ∧
      (step cfg s op).ignore = false ∧ (step cfg s op).gw = false) ∨
    (∃ r, headerCodes (step cfg s op).out = c :: r) := by
  rcases hJ with ⟨h1, h2, h3, h4⟩ | ⟨r, hr⟩
  · cases op with
    | setHeader hn v =>
      left
      exact ⟨by simp [step, h1], by simp [step, h2], by simp [step, h3],
        by simp [step, h4]⟩
    | writeHeader c2 =>
      have hstep : step cfg s (Op.writeHeader c2) = s :=
        writeHeader_noop s c2 (by rw [h1]; exact hc)
      rw [hstep]
      left
      exact ⟨h1, h2, h3, h4⟩
    | flush =>
      have hstep : step cfg s Op.flush = s := by
        simp [step, flush, flushWith, h3, h4]
      rw [hstep]
      left
      exact ⟨h1, h2, h3, h4⟩
    | close =>
      have hstep : step cfg s Op.close = (startPlain s).1 := by
        simp [step, close_plain cfg s h3 h4]
      rw [hstep, startPlain_eq]
      right
      exact ⟨[], by cases hb : s.buf <;> simp [h1, h2, hc]⟩
    | write b =>
      have hred : step cfg s (Op.write b) = (write cfg s b).1 := rfl
      rw [hred]
      rcases write_uncommitted_cases cfg s b h3 h4 with hcase |
        ⟨s2, heq, ho, hcode, -, -, -⟩ | ⟨s2, heq, ho, hcode, -, -, -⟩
      · rw [hcase]
        left
        exact ⟨by simp [h1], by simp [h2], by simp [h3], by simp [h4]⟩
      · rw [heq, startGzip_eq]
        right
        refine ⟨[], ?_⟩
        have hs2c : s2.code = c := hcode.trans h1
        by_cases hb : lenB s2.buf > 0 <;> simp [ho, h2, hs2c, hc, hb]
      · rw [heq, startPlain_eq]
        right
        refine ⟨[], ?_⟩
        have hs2c : s2.code = c := hcode.trans h1
        cases hb : s2.buf <;> simp [ho, h2, hs2c, hc]
  · obtain ⟨t, ht⟩ := step_out_mono cfg s op
    right
    exact ⟨r ++ headerCodes t, by rw [ht, headerCodes_append, hr]; simp⟩

/-- The invariant of `statusJ_step`, propagated along a whole run. -/
theorem statusJ_run (cfg : Config) (ops : List Op) (s : St) (c : Int)
    (hc : ¬c = 0)
    (hJ : (s.code = c ∧ headerCodes s.out = [] ∧ s.ignore = false ∧
        s.gw = false) ∨ (∃ r, headerCodes s.out = c :: r)) :
    ((runOps cfg ops s).code = c ∧ headerCodes (runOps cfg ops s).out = [] ∧
      (runOps cfg ops s).ignore = false ∧ (runOps cfg ops s).gw = false) ∨
    (∃ r, headerCodes (runOps cfg ops s).out = c :: r) := by
  induction ops generalizing s with
  | nil => simpa using hJ
  | cons op t ih =>
    rw [runOps_cons]
    exact ih _ (statusJ_step cfg s op c hc hJ)

/-- C4: whatever the handler does afterwards, if its first `WriteHeader`
call carries a valid (nonzero) code `c` and arrives while the machine is
still uncommitted, then the first status code the underlying sink receives
during the whole request — which is the one `net/http` uses, later calls
being superfluous — is exactly `c`; in particular every later `WriteHeader`
made before commitment is ignored. -/
theorem claim4_first_status_wins (cfg : Config) (pre post : List Op) (c : Int)
    (hpre : pre.all (fun op => !isWH op) = true)
    (hc : ¬c = 0)
    (hunc : committed (runOps cfg pre initSt) = false) :
    firstEmitted (runReq cfg (pre ++ Op.writeHeader c :: post)).out = some c := by
  obtain ⟨hc0, hhc⟩ := code0_run cfg pre initSt hpre rfl (by simp [initSt])
  have hig : (runOps cfg pre initSt).ignore = false ∧
      (runOps cfg pre initSt).gw = false := by
    simpa [committed] using hunc
  have hstep : step cfg (runOps cfg pre initSt) (Op.writeHeader c) =
      { runOps cfg pre initSt with code := c } := by
    simp [step, writeHeader, hc0]
  unfold runReq
  rw [runOps_append, runOps_cons, hstep]
  have hJ := statusJ_run cfg post { runOps cfg pre initSt with code := c } c hc
    (Or.inl ⟨rfl, by simpa using hhc, by simpa using hig.1,
      by simpa using hig.2⟩)
  rcases hJ with ⟨j1, j2, j3, j4⟩ | ⟨r, hrr⟩
  · rw [close_plain cfg _ j3 j4, startPlain_eq]
    unfold firstEmitted
    cases hb : (runOps cfg post
        { runOps cfg pre initSt with code := c }).buf <;>
      simp [j1, j2, hc]
  · obtain ⟨t, ht⟩ := step_out_mono cfg
      (runOps cfg post { runOps cfg pre initSt with code := c }) Op.close
    have ht2 : (close cfg (runOps cfg post
        { runOps cfg pre initSt with code := c })).1.out =
        (runOps cfg post { runOps cfg pre initSt with code := c }).out ++ t := ht
    rw [ht2]
    unfold firstEmitted
    rw [headerCodes_append, hrr]
    rfl

/-- Witness: C4 applied to a handler that calls `WriteHeader 500` first and
`WriteHeader 404` afterwards. -/
theorem claim4_first_status_wins_witness :
    (([] : List Op).all (fun op => !isWH op) = true ∧ ¬(500 : Int) = 0 ∧
      committed (runOps cfgTiny [] initSt) = false) ∧
    firstEmitted (runReq cfgTiny
      ([] ++ Op.writeHeader 500 :: [Op.writeHeader 404])).out = some 500 :=
  ⟨⟨by decide, by decide, by decide⟩,
    claim4_first_status_wins cfgTiny [] [Op.writeHeader 404] 500 (by decide)
      (by decide) (by decide)⟩

end Httpgzip
